import Mathlib

/-!
Verification of the interactive display-region editing engine of the
display-monitor application (the configuration view's pointer-driven
quadrilateral editor).

Shallow embedding of the JavaScript source: pixel coordinates are modelled
as exact rationals (reals for the trigonometric rotation claims), JS arrays
as lists, and the mutable editor state (`window.appState.displays`,
`undoStack`, `redoStack`, gesture globals) as explicit state-passing
functions.  JS deep cloning via `JSON.parse(JSON.stringify(_))` is the
identity on the modelled value domain, so snapshots are plain values.
-/

namespace DisplayMonitor

/-- A 2-D point `{x, y}` as used throughout the editor. -/
structure Pt (α : Type) where
  x : α
  y : α
deriving Repr, DecidableEq

instance {α : Type} [Inhabited α] : Inhabited (Pt α) := ⟨⟨default, default⟩⟩

/-- A display region entity.  `corners` is the geometric ground truth; the
bounding-box fields `x, y, w, h` are only written on load (absent on freshly
drawn regions, hence `Option`).  `rotation` is the informational integer
rotation field. -/
structure Display where
  id : Nat
  name : String
  camId : Option Nat
  corners : List (Pt ℚ)
  x : Option ℚ := none
  y : Option ℚ := none
  w : Option ℚ := none
  h : Option ℚ := none
  rotation : Int := 0
  enablePerspective : Bool := false
deriving Repr, DecidableEq

/-! ## CoordinateMapper

From the mousedown handler in `bindCanvasEvents`:
rendered position of a native point is `(offsetX + c.x * scale, offsetY + c.y * scale)`
(corner-handle hit test), and the native position of the pointer is
`((mouseX - offsetX) / scale, (mouseY - offsetY) / scale)`. -/

/-- `toRendered`: native-space point to rendered-surface coordinates. -/
def toRendered (offsetX offsetY scale : ℚ) (p : Pt ℚ) : Pt ℚ :=
  ⟨offsetX + p.x * scale, offsetY + p.y * scale⟩

/-- `toNative`: rendered-surface coordinates to native-space point. -/
def toNative (offsetX offsetY scale : ℚ) (q : Pt ℚ) : Pt ℚ :=
  ⟨(q.x - offsetX) / scale, (q.y - offsetY) / scale⟩

/-- C6: for every offset `(offsetX, offsetY)`, every non-zero `scale` and
every native point `p`, the round trip `toNative (toRendered p) = p` holds
exactly over exact (rational) arithmetic. -/
theorem toNative_toRendered_roundtrip (offsetX offsetY scale : ℚ) (p : Pt ℚ)
    (hs : scale ≠ 0) :
    toNative offsetX offsetY scale (toRendered offsetX offsetY scale p) = p := by
  cases p with
  | mk px py =>
    simp only [toNative, toRendered, Pt.mk.injEq]
    constructor <;> field_simp

/-- Witness for C6 at `offset = (5, 7)`, `scale = 3`, `p = (11, 13)`. -/
theorem toNative_toRendered_roundtrip_witness :
    (3 : ℚ) ≠ 0 ∧
      toNative 5 7 3 (toRendered 5 7 3 ⟨11, 13⟩) = (⟨11, 13⟩ : Pt ℚ) :=
  ⟨by norm_num, toNative_toRendered_roundtrip 5 7 3 ⟨11, 13⟩ (by norm_num)⟩

/-! ## Hit testing: even-odd point-in-polygon (`isPointInPoly`) -/

/-- Even-odd ray-casting point-in-polygon test; mirrors the JS loop
`for (let i = 0, j = poly.length - 1; i < poly.length; j = i++)` with its
crossing condition and parity toggle.  The division is only reached when the
first conjunct guarantees `poly[j].y - poly[i].y ≠ 0`. -/
def isPointInPoly (pt : Pt ℚ) (poly : List (Pt ℚ)) : Bool :=
  (List.range poly.length).foldl
    (fun c i =>
      let j := if i = 0 then poly.length - 1 else i - 1
      let pA := poly.getD i default
      let pB := poly.getD j default
      if ((pA.y ≤ pt.y ∧ pt.y < pB.y) ∨ (pB.y ≤ pt.y ∧ pt.y < pA.y)) ∧
          pt.x < (pB.x - pA.x) * (pt.y - pA.y) / (pB.y - pA.y) + pA.x
      then !c else c)
    false

/-- C9: on the square `[(0,0),(10,0),(10,10),(0,10)]` the even-odd test
classifies `(5,5)` as inside and `(15,15)` as outside, and (being a pure
function of its arguments) it is deterministic: it returns the same answer
on every evaluation for any fixed polygon and point, vertices included. -/
theorem isPointInPoly_square_spec :
    isPointInPoly ⟨5, 5⟩ [⟨0, 0⟩, ⟨10, 0⟩, ⟨10, 10⟩, ⟨0, 10⟩] = true ∧
    isPointInPoly ⟨15, 15⟩ [⟨0, 0⟩, ⟨10, 0⟩, ⟨10, 10⟩, ⟨0, 10⟩] = false ∧
    ∀ (pt : Pt ℚ) (poly : List (Pt ℚ)),
      isPointInPoly pt poly = isPointInPoly pt poly := by
  refine ⟨?_, ?_, fun _ _ => rfl⟩ <;>
    · simp only [isPointInPoly]
      norm_num [List.range, List.range.loop, List.foldl, List.getD]

/-! ## Edge resize (mousemove, `activeSideIndex` branch)

`i1 = activeSideIndex; i2 = (activeSideIndex + 1) % 4;` then both corners of
the side are set to their gesture-start (`originalCorners`) positions plus
the native-space delta `(ndx, ndy)`. -/

/-- Apply an edge-resize move to the gesture-start corner list. -/
def edgeResizeCorners (orig : List (Pt ℚ)) (activeSideIndex : Nat)
    (ndx ndy : ℚ) : List (Pt ℚ) :=
  let i1 := activeSideIndex
  let i2 := (activeSideIndex + 1) % 4
  let c1 := orig.getD i1 default
  let c2 := orig.getD i2 default
  (orig.set i1 ⟨c1.x + ndx, c1.y + ndy⟩).set i2 ⟨c2.x + ndx, c2.y + ndy⟩

/-- C7: for every 4-corner region and edge-resize gesture on edge `i` with
native delta `(ndx, ndy)`, corners `i` and `(i+1) % 4` each move by exactly
`(ndx, ndy)` relative to their gesture-start positions and the other two
corners are unchanged. -/
theorem edgeResize_moves_exactly_two_corners (cs : List (Pt ℚ))
    (hlen : cs.length = 4) (i : Nat) (hi : i < 4) (ndx ndy : ℚ) :
    (edgeResizeCorners cs i ndx ndy).length = 4 ∧
    ∀ j, j < 4 →
      (edgeResizeCorners cs i ndx ndy).getD j default =
        (if j = i ∨ j = (i + 1) % 4
          then (⟨(cs.getD j default).x + ndx, (cs.getD j default).y + ndy⟩ : Pt ℚ)
          else cs.getD j default) := by
  match cs, hlen with
  | [c0, c1, c2, c3], _ =>
    refine ⟨?_, ?_⟩
    · interval_cases i <;> simp [edgeResizeCorners]
    · intro j hj
      interval_cases i <;> interval_cases j <;>
        simp [edgeResizeCorners]

/-- Witness for C7: dragging edge 0 of the unit square by `(2, 3)`. -/
theorem edgeResize_moves_exactly_two_corners_witness :
    (([⟨0, 0⟩, ⟨1, 0⟩, ⟨1, 1⟩, ⟨0, 1⟩] : List (Pt ℚ)).length = 4 ∧ 0 < 4) ∧
    ((edgeResizeCorners [⟨0, 0⟩, ⟨1, 0⟩, ⟨1, 1⟩, ⟨0, 1⟩] 0 2 3).length = 4 ∧
      ∀ j, j < 4 →
        (edgeResizeCorners [⟨0, 0⟩, ⟨1, 0⟩, ⟨1, 1⟩, ⟨0, 1⟩] 0 2 3).getD j default =
          (if j = 0 ∨ j = (0 + 1) % 4
            then (⟨(([⟨0, 0⟩, ⟨1, 0⟩, ⟨1, 1⟩, ⟨0, 1⟩] : List (Pt ℚ)).getD j default).x + 2,
                    (([⟨0, 0⟩, ⟨1, 0⟩, ⟨1, 1⟩, ⟨0, 1⟩] : List (Pt ℚ)).getD j default).y + 3⟩ : Pt ℚ)
            else ([⟨0, 0⟩, ⟨1, 0⟩, ⟨1, 1⟩, ⟨0, 1⟩] : List (Pt ℚ)).getD j default)) :=
  ⟨⟨by decide, by decide⟩,
    edgeResize_moves_exactly_two_corners [⟨0, 0⟩, ⟨1, 0⟩, ⟨1, 1⟩, ⟨0, 1⟩]
      (by decide) 0 (by decide) 2 3⟩

/-! ## Drawing gesture

Mousedown in empty media space creates a provisional region with all four
corners collapsed at the native click point and appends it to
`window.appState.displays`.  Mousemove (the `isDrawing` branch) moves
`corners[1].x`, `corners[2]`, `corners[3].y` relative to `originalCorners`.
Mouseup measures `w = |corners[0].x - corners[2].x|`,
`h = |corners[0].y - corners[2].y|` and removes the region when
`w < 20 || h < 20`, keeping it otherwise.  The bounding box is recomputed
from corners on save (`saveConfig`): `x = Math.min(...corners.map(c => c.x))`
and so on. -/

/-- `Math.min` over a spread of a nonempty list. -/
def listMin : List ℚ → ℚ
  | [] => 0
  | a :: rest => rest.foldl min a

/-- `Math.max` over a spread of a nonempty list. -/
def listMax : List ℚ → ℚ
  | [] => 0
  | a :: rest => rest.foldl max a

/-- Bounding-box x recomputed from corners on save. -/
def bboxX (d : Display) : ℚ := listMin (d.corners.map Pt.x)

/-- Bounding-box y recomputed from corners on save. -/
def bboxY (d : Display) : ℚ := listMin (d.corners.map Pt.y)

/-- Bounding-box width recomputed from corners on save. -/
def bboxW (d : Display) : ℚ :=
  listMax (d.corners.map Pt.x) - listMin (d.corners.map Pt.x)

/-- Bounding-box height recomputed from corners on save. -/
def bboxH (d : Display) : ℚ :=
  listMax (d.corners.map Pt.y) - listMin (d.corners.map Pt.y)

/-- The provisional region pushed by mousedown on empty media space: all
four corners collapsed to the native click point. -/
def mkProvisional (camId : Option Nat) (newId : Nat) (p : Pt ℚ) : Display :=
  { id := newId, name := "New Display", camId := camId,
    corners := [p, p, p, p], rotation := 0, enablePerspective := false }

/-- Mousedown in empty media space: push the provisional region. -/
def drawMousedown (ds : List Display) (camId : Option Nat) (newId : Nat)
    (p : Pt ℚ) : List Display :=
  ds ++ [mkProvisional camId newId p]

/-- `displays.find(x => x.id === activeId)` followed by in-place mutation:
replace the first entry with the matching id. -/
def updateFirst (ds : List Display) (i : Nat) (f : Display → Display) :
    List Display :=
  match ds with
  | [] => []
  | d :: rest => if d.id = i then f d :: rest else d :: updateFirst rest i f

/-- The `isDrawing` mousemove branch applied to one display:
`corners[1].x`, `corners[2].x/y` and `corners[3].y` are set from
`originalCorners` plus the native delta; `corners[0]`, `corners[1].y` and
`corners[3].x` keep their current values. -/
def drawMoveDisplay (orig : List (Pt ℚ)) (ndx ndy : ℚ) (d : Display) :
    Display :=
  { d with corners :=
      match d.corners, orig with
      | [c0, c1, c2, c3], [_, o1, o2, o3] =>
          [c0, ⟨o1.x + ndx, c1.y⟩, ⟨o2.x + ndx, o2.y + ndy⟩, ⟨c3.x, o3.y + ndy⟩]
      | cs, _ => cs }

/-- Mousemove while drawing. -/
def drawMousemove (ds : List Display) (activeId : Nat) (orig : List (Pt ℚ))
    (ndx ndy : ℚ) : List Display :=
  updateFirst ds activeId (drawMoveDisplay orig ndx ndy)

/-- Mouseup while drawing: discard the provisional region when its native
bounding box is below the 20-pixel threshold in either dimension. -/
def drawMouseup (ds : List Display) (drawingDisplayId : Nat) : List Display :=
  match ds.find? (fun x => decide (x.id = drawingDisplayId)) with
  | none => ds
  | some d =>
    let w := |(d.corners.getD 0 default).x - (d.corners.getD 2 default).x|
    let h := |(d.corners.getD 0 default).y - (d.corners.getD 2 default).y|
    if w < 20 ∨ h < 20 then ds.filter (fun x => decide (x.id ≠ drawingDisplayId))
    else ds

theorem updateFirst_append_of_ne (ds : List Display) (d0 : Display) (i : Nat)
    (h : ∀ d ∈ ds, d.id ≠ i) (f : Display → Display) :
    updateFirst (ds ++ [d0]) i f = ds ++ [if d0.id = i then f d0 else d0] := by
  induction ds with
  | nil =>
    simp only [List.nil_append, updateFirst]
    split <;> simp [updateFirst]
  | cons a rest ih =>
    have ha : a.id ≠ i := h a (by simp)
    simp only [List.cons_append, updateFirst, if_neg ha, List.append_eq]
    rw [ih (fun d hd => h d (by simp [hd]))]

theorem find?_append_singleton (ds : List Display) (d0 : Display) (i : Nat)
    (h : ∀ d ∈ ds, d.id ≠ i) (hd0 : d0.id = i) :
    (ds ++ [d0]).find? (fun x => decide (x.id = i)) = some d0 := by
  induction ds with
  | nil => simp [List.find?, hd0]
  | cons a rest ih =>
    have ha : a.id ≠ i := h a (by simp)
    simp only [List.cons_append, List.find?, decide_eq_false ha,
      List.append_eq]
    exact ih (fun d hd => h d (by simp [hd]))

theorem filter_append_singleton (ds : List Display) (d0 : Display) (i : Nat)
    (h : ∀ d ∈ ds, d.id ≠ i) (hd0 : d0.id = i) :
    (ds ++ [d0]).filter (fun x => decide (x.id ≠ i)) = ds := by
  induction ds with
  | nil => simp [List.filter, hd0]
  | cons a rest ih =>
    have ha : a.id ≠ i := h a (by simp)
    have ih' := ih (fun d hd => h d (by simp [hd]))
    simp only [decide_not] at ih'
    simp only [List.cons_append, List.filter_cons, decide_not,
      decide_eq_false ha, Bool.not_false, if_true, List.append_eq]
    rw [ih']

theorem listMin_abba (a b : ℚ) : listMin [a, b, b, a] = min a b := by
  simp only [listMin, List.foldl]
  rw [min_assoc, min_comm b a, min_self]

theorem listMax_abba (a b : ℚ) : listMax [a, b, b, a] = max a b := by
  simp only [listMax, List.foldl]
  rw [max_assoc, max_comm b a, max_self]

theorem listMin_aabb (a b : ℚ) : listMin [a, a, b, b] = min a b := by
  simp only [listMin, List.foldl]
  rw [min_self, min_assoc, min_self]

theorem listMax_aabb (a b : ℚ) : listMax [a, a, b, b] = max a b := by
  simp only [listMax, List.foldl]
  rw [max_self, max_assoc, max_self]

/-- C1: releasing a drawing gesture that started at native `(x0, y0)` and
ended at native `(x1, y1)` removes the provisional region when
`|x1 - x0| < 20` or `|y1 - y0| < 20` (restoring the previous model exactly,
so an empty model stays empty), and otherwise commits a region whose
axis-aligned bounding box is exactly
`(min x0 x1, min y0 y1, |x1 - x0|, |y1 - y0|)`. -/
theorem drawing_gesture_commit_or_discard (ds : List Display)
    (camId : Option Nat) (newId : Nat) (x0 y0 x1 y1 : ℚ)
    (hfresh : ∀ d ∈ ds, d.id ≠ newId) :
    ((|x1 - x0| < 20 ∨ |y1 - y0| < 20) →
      drawMouseup
        (drawMousemove (drawMousedown ds camId newId ⟨x0, y0⟩) newId
          [⟨x0, y0⟩, ⟨x0, y0⟩, ⟨x0, y0⟩, ⟨x0, y0⟩] (x1 - x0) (y1 - y0)) newId
        = ds) ∧
    (¬(|x1 - x0| < 20 ∨ |y1 - y0| < 20) →
      ∃ d : Display,
        drawMouseup
          (drawMousemove (drawMousedown ds camId newId ⟨x0, y0⟩) newId
            [⟨x0, y0⟩, ⟨x0, y0⟩, ⟨x0, y0⟩, ⟨x0, y0⟩] (x1 - x0) (y1 - y0)) newId
          = ds ++ [d] ∧
        bboxX d = min x0 x1 ∧ bboxY d = min y0 y1 ∧
        bboxW d = |x1 - x0| ∧ bboxH d = |y1 - y0|) := by
  have hx1 : x0 + (x1 - x0) = x1 := by ring
  have hy1 : y0 + (y1 - y0) = y1 := by ring
  set d2 : Display :=
    { id := newId, name := "New Display", camId := camId,
      corners := [⟨x0, y0⟩, ⟨x1, y0⟩, ⟨x1, y1⟩, ⟨x0, y1⟩],
      rotation := 0, enablePerspective := false } with hd2
  have hmove : drawMousemove (drawMousedown ds camId newId ⟨x0, y0⟩) newId
      [⟨x0, y0⟩, ⟨x0, y0⟩, ⟨x0, y0⟩, ⟨x0, y0⟩] (x1 - x0) (y1 - y0)
      = ds ++ [d2] := by
    unfold drawMousemove drawMousedown
    rw [updateFirst_append_of_ne _ _ _ hfresh]
    simp [mkProvisional, drawMoveDisplay, hd2, hx1, hy1]
  have hid2 : d2.id = newId := by rw [hd2]
  have hc0 : d2.corners.getD 0 default = (⟨x0, y0⟩ : Pt ℚ) := by rw [hd2]; rfl
  have hc2 : d2.corners.getD 2 default = (⟨x1, y1⟩ : Pt ℚ) := by rw [hd2]; rfl
  have hup : drawMouseup (ds ++ [d2]) newId =
      if |x0 - x1| < 20 ∨ |y0 - y1| < 20 then ds else ds ++ [d2] := by
    unfold drawMouseup
    rw [find?_append_singleton ds d2 newId hfresh hid2]
    simp only [hc0, hc2]
    split
    · exact filter_append_singleton ds d2 newId hfresh hid2
    · rfl
  have habs : |x0 - x1| = |x1 - x0| := abs_sub_comm x0 x1
  have habsy : |y0 - y1| = |y1 - y0| := abs_sub_comm y0 y1
  constructor
  · intro hsmall
    rw [hmove, hup, if_pos (by rw [habs, habsy]; exact hsmall)]
  · intro hbig
    refine ⟨d2, ?_, ?_, ?_, ?_, ?_⟩
    · rw [hmove, hup, if_neg (by rw [habs, habsy]; exact hbig)]
    · show listMin (d2.corners.map Pt.x) = min x0 x1
      rw [hd2]
      show listMin [x0, x1, x1, x0] = min x0 x1
      exact listMin_abba x0 x1
    · show listMin (d2.corners.map Pt.y) = min y0 y1
      rw [hd2]
      show listMin [y0, y0, y1, y1] = min y0 y1
      exact listMin_aabb y0 y1
    · show listMax (d2.corners.map Pt.x) - listMin (d2.corners.map Pt.x) = _
      rw [hd2]
      show listMax [x0, x1, x1, x0] - listMin [x0, x1, x1, x0] = _
      rw [listMin_abba, listMax_abba, max_sub_min_eq_abs]
    · show listMax (d2.corners.map Pt.y) - listMin (d2.corners.map Pt.y) = _
      rw [hd2]
      show listMax [y0, y0, y1, y1] - listMin [y0, y0, y1, y1] = _
      rw [listMin_aabb, listMax_aabb, max_sub_min_eq_abs]

/-- Witness for C1: drawing from `(0, 0)` to `(100, 100)` on an empty
model. -/
theorem drawing_gesture_commit_or_discard_witness :
    (∀ d ∈ ([] : List Display), d.id ≠ 0) ∧
    (((|(100 : ℚ) - 0| < 20 ∨ |(100 : ℚ) - 0| < 20) →
      drawMouseup
        (drawMousemove (drawMousedown [] none 0 ⟨0, 0⟩) 0
          [⟨0, 0⟩, ⟨0, 0⟩, ⟨0, 0⟩, ⟨0, 0⟩] (100 - 0) (100 - 0)) 0
        = []) ∧
    (¬(|(100 : ℚ) - 0| < 20 ∨ |(100 : ℚ) - 0| < 20) →
      ∃ d : Display,
        drawMouseup
          (drawMousemove (drawMousedown [] none 0 ⟨0, 0⟩) 0
            [⟨0, 0⟩, ⟨0, 0⟩, ⟨0, 0⟩, ⟨0, 0⟩] (100 - 0) (100 - 0)) 0
          = [] ++ [d] ∧
        bboxX d = min 0 100 ∧ bboxY d = min 0 100 ∧
        bboxW d = |(100 : ℚ) - 0| ∧ bboxH d = |(100 : ℚ) - 0|)) :=
  ⟨fun d hd => absurd hd (List.not_mem_nil d),
    drawing_gesture_commit_or_discard [] none 0 0 0 100 100
      (fun d hd => absurd hd (List.not_mem_nil d))⟩

/-! ## HistoryManager (`saveState`, `undo`, `redo`)

The JS undo/redo stacks are arrays whose *end* is the top (`push`/`pop`);
`shift` evicts the oldest entry.  Here the stack is a list whose *head* is
the top, so `push` is `cons`, `pop` takes the head, and `shift` is
`dropLast`.  Deep cloning (`JSON.parse(JSON.stringify(_))`) is the identity
on the modelled value domain, so the snapshot type is a parameter `α`
(instantiated with `List Display` for the real model). -/

/-- Editor history state: current `displays` plus both stacks. -/
structure Hist (α : Type) where
  displays : α
  undoStack : List α
  redoStack : List α
deriving Repr, DecidableEq

/-- `undoStack.push(state); if (undoStack.length > 50) undoStack.shift()`. -/
def push50 {α : Type} (l : List α) : List α :=
  if l.length > 50 then l.dropLast else l

/-- `saveState()`: push a snapshot of the current displays, cap the stack
at 50 evicting the oldest, clear the redo stack. -/
def saveState {α : Type} (h : Hist α) : Hist α :=
  { h with undoStack := push50 (h.displays :: h.undoStack), redoStack := [] }

/-- `undo()`: no-op on an empty stack, otherwise push the current state on
the redo stack and restore the popped snapshot. -/
def undo {α : Type} (h : Hist α) : Hist α :=
  match h.undoStack with
  | [] => h
  | prev :: rest =>
    { displays := prev, undoStack := rest,
      redoStack := h.displays :: h.redoStack }

/-- `redo()`: symmetric to `undo`; note the push onto the undo stack is
*not* capped here, exactly as in the source. -/
def redo {α : Type} (h : Hist α) : Hist α :=
  match h.redoStack with
  | [] => h
  | next :: rest =>
    { displays := next, undoStack := h.displays :: h.undoStack,
      redoStack := rest }

/-- A mutating gesture: `saveState()` first, then mutate the displays. -/
def gesture {α : Type} (f : α → α) (h : Hist α) : Hist α :=
  let h' := saveState h
  { h' with displays := f h'.displays }

/-- A sequence of mutating gestures, applied left to right. -/
def applyGestures {α : Type} (fs : List (α → α)) (h : Hist α) : Hist α :=
  fs.foldl (fun h f => gesture f h) h

/-- Displays after running the gestures' mutations in order. -/
def runD {α : Type} (fs : List (α → α)) (d : α) : α :=
  fs.foldl (fun a f => f a) d

/-- The pre-mutation snapshots recorded by a gesture sequence, most recent
first. -/
def snapsRev {α : Type} : List (α → α) → α → List α
  | [], _ => []
  | f :: fs, d => snapsRev fs (f d) ++ [d]

/-- The undo stack left by a gesture sequence, starting from stack `u`. -/
def stackAfter {α : Type} : List (α → α) → α → List α → List α
  | [], _, u => u
  | f :: fs, d, u => stackAfter fs (f d) (push50 (d :: u))

theorem applyGestures_eq {α : Type} (fs : List (α → α)) (h : Hist α) :
    applyGestures fs h =
      { displays := runD fs h.displays,
        undoStack := stackAfter fs h.displays h.undoStack,
        redoStack := if fs.isEmpty then h.redoStack else [] } := by
  induction fs generalizing h with
  | nil => simp [applyGestures, runD, stackAfter]
  | cons f fs ih =>
    have hstep : applyGestures (f :: fs) h = applyGestures fs (gesture f h) := rfl
    rw [hstep, ih]
    simp [gesture, saveState, runD, stackAfter]

theorem snapsRev_length {α : Type} (fs : List (α → α)) (d : α) :
    (snapsRev fs d).length = fs.length := by
  induction fs generalizing d with
  | nil => rfl
  | cons f fs ih => simp [snapsRev, ih]

theorem push50_cons_eq {α : Type} (d : α) (u : List α) :
    push50 (d :: u) = d :: (if u.length ≥ 50 then u.dropLast else u) := by
  unfold push50
  cases u with
  | nil => simp
  | cons b l =>
    by_cases hu : (b :: l).length ≥ 50
    · rw [if_pos (by simp only [List.length_cons] at hu ⊢; omega), if_pos hu,
        List.dropLast_cons₂]
    · rw [if_neg (by simp only [List.length_cons] at hu ⊢; omega), if_neg hu]

theorem dropLast_take_eq {α : Type} (u : List α) (k : Nat)
    (hk : k ≤ u.length - 1) : u.dropLast.take k = u.take k := by
  rw [List.dropLast_eq_take, List.take_take, inf_eq_left.mpr hk]

theorem stackAfter_of_le {α : Type} (fs : List (α → α)) (d : α) (u : List α)
    (hN : fs.length ≤ 50) :
    stackAfter fs d u =
      snapsRev fs d ++
        u.take ((if u.length ≤ 50 then 50 else u.length) - fs.length) := by
  induction fs generalizing d u with
  | nil =>
    have htake : u.take ((if u.length ≤ 50 then 50 else u.length)
        - List.length ([] : List (α → α))) = u := by
      split <;>
        exact List.take_of_length_le
          (by simp only [List.length_nil, Nat.sub_zero]; omega)
    rw [show stackAfter [] d u = u from rfl, show snapsRev [] d = [] from rfl,
      List.nil_append, htake]
  | cons f fs ih =>
    have hN' : fs.length ≤ 50 := by
      simp only [List.length_cons] at hN; omega
    rw [show stackAfter (f :: fs) d u = stackAfter fs (f d) (push50 (d :: u))
      from rfl]
    rw [push50_cons_eq, ih _ _ hN']
    by_cases hu : u.length ≥ 50
    · have hlen : (d :: u.dropLast).length = u.length := by
        simp only [List.length_cons, List.length_dropLast]; omega
      rw [if_pos hu]
      by_cases h50 : u.length = 50
      · have hcond : (d :: u.dropLast).length ≤ 50 := by omega
        have hidx : 50 - fs.length = (50 - (fs.length + 1)) + 1 := by
          simp only [List.length_cons] at hN; omega
        rw [if_pos hcond, hidx, List.take_succ_cons,
          dropLast_take_eq u _ (by omega)]
        have htgt : (if u.length ≤ 50 then 50 else u.length) - (fs.length + 1)
            = 50 - (fs.length + 1) := by rw [if_pos (by omega)]
        simp [snapsRev, List.append_assoc, List.length_cons, htgt]
      · have hcond : ¬((d :: u.dropLast).length ≤ 50) := by omega
        have hidx : u.length - fs.length = (u.length - (fs.length + 1)) + 1 := by
          simp only [List.length_cons] at hN; omega
        rw [if_neg hcond, hlen, hidx, List.take_succ_cons,
          dropLast_take_eq u _ (by omega)]
        have htgt : (if u.length ≤ 50 then 50 else u.length) - (fs.length + 1)
            = u.length - (fs.length + 1) := by rw [if_neg (by omega)]
        simp [snapsRev, List.append_assoc, List.length_cons, htgt]
    · rw [if_neg hu]
      have hcond : (d :: u).length ≤ 50 := by
        simp only [List.length_cons]; omega
      have hidx : 50 - fs.length = (50 - (fs.length + 1)) + 1 := by
        simp only [List.length_cons] at hN; omega
      rw [if_pos hcond, hidx, List.take_succ_cons]
      have htgt : (if u.length ≤ 50 then 50 else u.length) - (fs.length + 1)
          = 50 - (fs.length + 1) := by rw [if_pos (by omega)]
      simp [snapsRev, List.append_assoc, htgt]

theorem undo_iterate {α : Type} (snaps : List α) (dcur : α) (t r : List α) :
    undo^[snaps.length] ⟨dcur, snaps ++ t, r⟩ =
      ⟨snaps.getLastD dcur, t, ((dcur :: snaps).dropLast).reverse ++ r⟩ := by
  induction snaps generalizing dcur r with
  | nil => simp
  | cons a snaps ih =>
    rw [show (a :: snaps).length = snaps.length + 1 from rfl,
      Function.iterate_succ_apply]
    rw [show undo ⟨dcur, (a :: snaps) ++ t, r⟩ = ⟨a, snaps ++ t, dcur :: r⟩
      from rfl]
    rw [ih]
    rw [List.getLastD_cons, List.dropLast_cons₂, List.reverse_cons,
      List.append_assoc, List.singleton_append]

theorem redo_iterate {α : Type} (rs : List α) (dcur : α) (u : List α) :
    redo^[rs.length] ⟨dcur, u, rs⟩ =
      ⟨rs.getLastD dcur, ((dcur :: rs).dropLast).reverse ++ u, []⟩ := by
  induction rs generalizing dcur u with
  | nil => simp
  | cons a rs ih =>
    rw [show (a :: rs).length = rs.length + 1 from rfl,
      Function.iterate_succ_apply]
    rw [show redo ⟨dcur, u, a :: rs⟩ = ⟨a, dcur :: u, rs⟩ from rfl]
    rw [ih]
    rw [List.getLastD_cons, List.dropLast_cons₂, List.reverse_cons,
      List.append_assoc, List.singleton_append]

theorem stackAfter_of_ge {α : Type} (fs : List (α → α)) (d : α) (u : List α)
    (hu : u.length ≤ 50) (hN : 50 ≤ fs.length) :
    stackAfter fs d u = (snapsRev fs d).take 50 := by
  induction fs generalizing d u with
  | nil => simp at hN
  | cons f fs ih =>
    rw [show stackAfter (f :: fs) d u = stackAfter fs (f d) (push50 (d :: u))
      from rfl]
    have hu' : (push50 (d :: u)).length ≤ 50 := by
      rw [push50_cons_eq]
      by_cases hc : u.length ≥ 50 <;>
        simp [hc, List.length_dropLast] <;> omega
    by_cases hge : 50 ≤ fs.length
    · rw [ih _ _ hu' hge]
      have hlen : 50 ≤ (snapsRev fs (f d)).length := by
        rw [snapsRev_length]; exact hge
      rw [show snapsRev (f :: fs) d = snapsRev fs (f d) ++ [d] from rfl,
        List.take_append_of_le_length hlen]
    · have h49 : fs.length = 49 := by
        simp only [List.length_cons] at hN; omega
      rw [stackAfter_of_le _ _ _ (by omega)]
      have hidx : (if (push50 (d :: u)).length ≤ 50
          then 50 else (push50 (d :: u)).length) - fs.length = 1 := by
        rw [if_pos hu']; omega
      rw [hidx]
      have htake1 : (push50 (d :: u)).take 1 = [d] := by
        rw [push50_cons_eq]
        cases hif : (if u.length ≥ 50 then u.dropLast else u) <;> simp
      rw [htake1,
        show snapsRev (f :: fs) d = snapsRev fs (f d) ++ [d] from rfl,
        List.take_append_eq_append_take]
      have h1 : (snapsRev fs (f d)).take 50 = snapsRev fs (f d) :=
        List.take_of_length_le (by rw [snapsRev_length]; omega)
      have h2 : 50 - (snapsRev fs (f d)).length = 1 := by
        rw [snapsRev_length]; omega
      rw [h1, h2]
      simp

/-- C2 (amended): for every initial history state and every sequence of at
most 50 mutating gestures, undoing once per gesture restores the displays
to their pre-mutation value, and then redoing once per gesture restores the
final post-mutation displays exactly.  (The bound is forced by the
50-snapshot cap: a 51st push evicts the oldest snapshot, see the
counterexample.) -/
theorem undo_redo_symmetry (α : Type) (h : Hist α) (fs : List (α → α))
    (hN : fs.length ≤ 50) :
    (undo^[fs.length] (applyGestures fs h)).displays = h.displays ∧
    (redo^[fs.length] (undo^[fs.length] (applyGestures fs h))).displays =
      (applyGestures fs h).displays := by
  cases fs with
  | nil => exact ⟨rfl, rfl⟩
  | cons f fs0 =>
    rw [applyGestures_eq]
    rw [show (if (f :: fs0).isEmpty then h.redoStack else []) = [] from rfl]
    rw [stackAfter_of_le (f :: fs0) h.displays h.undoStack hN]
    have hlen : (f :: fs0).length = (snapsRev (f :: fs0) h.displays).length :=
      (snapsRev_length _ _).symm
    rw [hlen, undo_iterate]
    have hfst : (snapsRev (f :: fs0) h.displays).getLastD
        (runD (f :: fs0) h.displays) = h.displays := by
      rw [show snapsRev (f :: fs0) h.displays
          = snapsRev fs0 (f h.displays) ++ [h.displays] from rfl,
        List.getLastD_concat]
    rw [hfst]
    refine ⟨rfl, ?_⟩
    obtain ⟨s1, srest, hs⟩ : ∃ s1 srest,
        snapsRev (f :: fs0) h.displays = s1 :: srest := by
      cases hsn : snapsRev (f :: fs0) h.displays with
      | nil => rw [hsn] at hlen; simp at hlen
      | cons a b => exact ⟨a, b, rfl⟩
    have hR : ((runD (f :: fs0) h.displays :: snapsRev (f :: fs0) h.displays).dropLast).reverse
        ++ ([] : List α)
        = ((s1 :: srest).dropLast).reverse ++ [runD (f :: fs0) h.displays] := by
      rw [hs, List.dropLast_cons₂, List.reverse_cons, List.append_nil]
    rw [hR]
    have hcount : (snapsRev (f :: fs0) h.displays).length
        = (((s1 :: srest).dropLast).reverse ++ [runD (f :: fs0) h.displays]).length := by
      rw [hs]
      simp [List.length_dropLast]
    rw [hcount, redo_iterate, List.getLastD_concat]

/-- Witness for C2 at one increment gesture on naturals. -/
theorem undo_redo_symmetry_witness :
    (([fun n => n + 1] : List (ℕ → ℕ)).length ≤ 50) ∧
    ((undo^[([fun n => n + 1] : List (ℕ → ℕ)).length]
        (applyGestures [fun n => n + 1] ⟨0, [], []⟩)).displays
        = (⟨0, [], []⟩ : Hist ℕ).displays ∧
      (redo^[([fun n => n + 1] : List (ℕ → ℕ)).length]
          (undo^[([fun n => n + 1] : List (ℕ → ℕ)).length]
            (applyGestures [fun n => n + 1] ⟨0, [], []⟩))).displays
        = (applyGestures [fun n => n + 1] (⟨0, [], []⟩ : Hist ℕ)).displays) :=
  ⟨by decide, undo_redo_symmetry ℕ ⟨0, [], []⟩ [fun n => n + 1] (by decide)⟩

set_option maxRecDepth 10000 in
/-- Counterexample to C2 as stated: 51 increment gestures on displays `0`
followed by 51 `undo()`s leave the displays at `1`, not the pre-mutation
`0`, because the 51st snapshot push evicted the oldest snapshot. -/
theorem undo_redo_symmetry_counterexample :
    (undo^[(List.replicate 51 (fun (n : ℕ) => n + 1)).length]
        (applyGestures (List.replicate 51 (fun n => n + 1)) ⟨0, [], []⟩)).displays
      ≠ (⟨0, [], []⟩ : Hist ℕ).displays := by
  decide

/-! ## Reachable editor states (for the history-cap invariant) -/

/-- The operations that touch the history stacks. -/
inductive EditorOp (α : Type) where
  | gestureOp (f : α → α)
  | undoOp
  | redoOp

/-- One editor step. -/
def applyOp {α : Type} (h : Hist α) : EditorOp α → Hist α
  | .gestureOp f => gesture f h
  | .undoOp => undo h
  | .redoOp => redo h

/-- Run the editor from an initial state through a list of operations. -/
def runOps {α : Type} (init : Hist α) (ops : List (EditorOp α)) : Hist α :=
  ops.foldl applyOp init

theorem applyOp_total_le {α : Type} (h : Hist α) (op : EditorOp α)
    (hinv : h.undoStack.length + h.redoStack.length ≤ 50) :
    (applyOp h op).undoStack.length + (applyOp h op).redoStack.length ≤ 50 := by
  cases op with
  | gestureOp f =>
    show (push50 (h.displays :: h.undoStack)).length + ([] : List α).length ≤ 50
    rw [push50_cons_eq]
    by_cases hc : h.undoStack.length ≥ 50 <;>
      simp [hc, List.length_dropLast] <;> omega
  | undoOp =>
    show (undo h).undoStack.length + (undo h).redoStack.length ≤ 50
    unfold undo
    cases hu : h.undoStack with
    | nil => exact hinv
    | cons a rest =>
      rw [hu] at hinv
      simp only [List.length_cons] at hinv
      show rest.length + (h.displays :: h.redoStack).length ≤ 50
      simp only [List.length_cons]
      omega
  | redoOp =>
    show (redo h).undoStack.length + (redo h).redoStack.length ≤ 50
    unfold redo
    cases hr : h.redoStack with
    | nil => exact hinv
    | cons a rest =>
      rw [hr] at hinv
      simp only [List.length_cons] at hinv
      show (h.displays :: h.undoStack).length + rest.length ≤ 50
      simp only [List.length_cons]
      omega

theorem runOps_total_le {α : Type} (d0 : α) (ops : List (EditorOp α)) :
    (runOps ⟨d0, [], []⟩ ops).undoStack.length
      + (runOps ⟨d0, [], []⟩ ops).redoStack.length ≤ 50 := by
  suffices hgen : ∀ (st : Hist α),
      st.undoStack.length + st.redoStack.length ≤ 50 →
      (runOps st ops).undoStack.length + (runOps st ops).redoStack.length ≤ 50 by
    exact hgen ⟨d0, [], []⟩ (by simp)
  induction ops with
  | nil => intro st h; exact h
  | cons op ops ih => intro st h; exact ih _ (applyOp_total_le st op h)

/-- C3: from the initial state (empty stacks) the undo stack never exceeds
50 snapshots under any sequence of gestures, undos and redos; and pushing
60 snapshots in a row leaves exactly the 50 most recent ones (most recent
first). -/
theorem history_cap (α : Type) (d0 : α) (ops : List (EditorOp α)) (d : α)
    (fs : List (α → α)) (h60 : fs.length = 60) :
    (runOps ⟨d0, [], []⟩ ops).undoStack.length ≤ 50 ∧
    (applyGestures fs ⟨d, [], []⟩).undoStack = (snapsRev fs d).take 50 := by
  constructor
  · have := runOps_total_le d0 ops
    omega
  · rw [applyGestures_eq]
    show stackAfter fs d [] = _
    exact stackAfter_of_ge fs d [] (by simp) (by omega)

set_option maxRecDepth 10000 in
/-- Witness for C3: a gesture/undo/redo run, and 60 increment pushes. -/
theorem history_cap_witness :
    ((List.replicate 60 (fun (n : ℕ) => n + 1)).length = 60) ∧
    ((runOps ⟨0, [], []⟩
        [EditorOp.gestureOp (fun (n : ℕ) => n + 1), EditorOp.undoOp,
          EditorOp.redoOp]).undoStack.length ≤ 50 ∧
      (applyGestures (List.replicate 60 (fun n => n + 1))
          (⟨0, [], []⟩ : Hist ℕ)).undoStack
        = (snapsRev (List.replicate 60 (fun n => n + 1)) 0).take 50) :=
  ⟨by decide,
    history_cap ℕ 0
      [EditorOp.gestureOp (fun n => n + 1), EditorOp.undoOp, EditorOp.redoOp]
      0 (List.replicate 60 (fun n => n + 1)) (by decide)⟩

/-! ## `startAddDisplayMode` (the Add Region button) -/

/-- The editor state relevant to the Add Region button: displays with
history, plus the selected-camera id (`none` models a falsy
`selectedCameraId`). -/
structure AppState where
  hist : Hist (List Display)
  selectedCameraId : Option Nat

/-- `startAddDisplayMode()`: it calls `saveState()` *before* checking that
a camera is selected; with no camera it alerts and returns, otherwise it
pushes the fixed 300x180 region at (100, 100) and selects it. -/
def startAddDisplayMode (st : AppState) (newId : Nat) : AppState :=
  let h := saveState st.hist
  match st.selectedCameraId with
  | none => { st with hist := h }
  | some camId =>
    let newD : Display :=
      { id := newId, name := "New Display", camId := some camId,
        x := some 100, y := some 100, w := some 300, h := some 180,
        rotation := 0, enablePerspective := false,
        corners := [⟨100, 100⟩, ⟨400, 100⟩, ⟨400, 280⟩, ⟨100, 280⟩] }
    { st with hist := { h with displays := h.displays ++ [newD] } }

/-- C10: invoking Add Region with no camera selected leaves the region
model unchanged, yet the undo stack has received a snapshot (with the
50-cap eviction applied) and the redo stack has been cleared, because
`saveState()` runs before the camera check. -/
theorem startAddDisplayMode_no_camera (st : AppState) (newId : Nat)
    (hno : st.selectedCameraId = none) :
    (startAddDisplayMode st newId).hist.displays = st.hist.displays ∧
    (startAddDisplayMode st newId).hist.undoStack =
      push50 (st.hist.displays :: st.hist.undoStack) ∧
    (startAddDisplayMode st newId).hist.redoStack = [] := by
  unfold startAddDisplayMode
  rw [hno]
  exact ⟨rfl, rfl, rfl⟩

/-- Witness for C10: one stored display, no selected camera. -/
theorem startAddDisplayMode_no_camera_witness :
    ((⟨⟨[], [], []⟩, none⟩ : AppState).selectedCameraId = none) ∧
    ((startAddDisplayMode ⟨⟨[], [], []⟩, none⟩ 7).hist.displays
        = (⟨⟨[], [], []⟩, none⟩ : AppState).hist.displays ∧
      (startAddDisplayMode ⟨⟨[], [], []⟩, none⟩ 7).hist.undoStack =
        push50 ((⟨⟨[], [], []⟩, none⟩ : AppState).hist.displays
          :: (⟨⟨[], [], []⟩, none⟩ : AppState).hist.undoStack) ∧
      (startAddDisplayMode ⟨⟨[], [], []⟩, none⟩ 7).hist.redoStack = []) :=
  ⟨rfl, startAddDisplayMode_no_camera ⟨⟨[], [], []⟩, none⟩ 7 rfl⟩

/-! ## `loadConfig` normalization

`parseNum(val) = isNaN(parseFloat(val)) ? 0 : parseFloat(val)`: the raw
JSON value is modelled by the *result* of `parseFloat`, an `Option ℚ`
(`none` = `NaN`, i.e. unparsable). -/

/-- A raw corner record as persisted. -/
structure RawCorner where
  x : Option ℚ
  y : Option ℚ
deriving Repr, DecidableEq

/-- A raw display record as persisted. -/
structure RawDisplay where
  id : Nat
  name : String
  camId : Option Nat
  corners : Option (List RawCorner)
  x : Option ℚ
  y : Option ℚ
  w : Option ℚ
  h : Option ℚ
  rotation : Option Int
  enablePerspective : Bool
deriving Repr, DecidableEq

/-- `parseNum`: default an unparsable value to 0. -/
def parseNum (v : Option ℚ) : ℚ :=
  match v with
  | some q => q
  | none => 0

/-- Corners reconstructed from the bounding box, used when the saved
record lacks a 4-element corners array. -/
def cornersFromBounds (x y w h : ℚ) : List (Pt ℚ) :=
  [⟨x, y⟩, ⟨x + w, y⟩, ⟨x + w, y + h⟩, ⟨x, y + h⟩]

/-- Per-record normalization done by `loadConfig`: coerce corner and
bounding-box values to numbers (defaulting to 0), reconstruct corners from
the bounding box when they are missing or not exactly 4, and coerce
`rotation` with `parseInt(...) || 0`. -/
def loadDisplay (raw : RawDisplay) : Display :=
  let corners :=
    match raw.corners with
    | some cs =>
      if cs.length = 4 then
        cs.map (fun c => (⟨parseNum c.x, parseNum c.y⟩ : Pt ℚ))
      else
        cornersFromBounds (parseNum raw.x) (parseNum raw.y)
          (parseNum raw.w) (parseNum raw.h)
    | none =>
      cornersFromBounds (parseNum raw.x) (parseNum raw.y)
        (parseNum raw.w) (parseNum raw.h)
  { id := raw.id, name := raw.name, camId := raw.camId,
    corners := corners,
    x := some (parseNum raw.x), y := some (parseNum raw.y),
    w := some (parseNum raw.w), h := some (parseNum raw.h),
    rotation := raw.rotation.getD 0,
    enablePerspective := raw.enablePerspective }

/-- `loadConfig` over the saved list (a total function: no record fails). -/
def loadConfigDisplays (raws : List RawDisplay) : List Display :=
  raws.map loadDisplay

/-- C8: after `loadConfig`, every display has exactly 4 corners with
numeric coordinates (unparsable values defaulted to 0); a record whose
corners are missing or not exactly 4 gets
`[(x,y), (x+w,y), (x+w,y+h), (x,y+h)]` from its coerced bounding box; and
loading is total, so no input record causes a failure. -/
theorem loadConfig_normalizes (raws : List RawDisplay) (d : Display)
    (hd : d ∈ loadConfigDisplays raws) (raw : RawDisplay) :
    d.corners.length = 4 ∧
    (∀ cs, raw.corners = some cs → cs.length = 4 →
      (loadDisplay raw).corners =
        cs.map (fun c => (⟨parseNum c.x, parseNum c.y⟩ : Pt ℚ))) ∧
    ((raw.corners = none ∨ ∀ cs, raw.corners = some cs → cs.length ≠ 4) →
      (loadDisplay raw).corners =
        cornersFromBounds (parseNum raw.x) (parseNum raw.y)
          (parseNum raw.w) (parseNum raw.h)) := by
  refine ⟨?_, ?_, ?_⟩
  · obtain ⟨r, _, hr⟩ := List.mem_map.mp hd
    subst hr
    unfold loadDisplay
    cases hc : r.corners with
    | none => simp [cornersFromBounds]
    | some cs =>
      by_cases h4 : cs.length = 4
      · simp [h4]
      · simp [h4, cornersFromBounds]
  · intro cs hcs h4
    unfold loadDisplay
    rw [hcs]
    simp [h4]
  · intro hcase
    unfold loadDisplay
    cases hc : raw.corners with
    | none => rfl
    | some cs =>
      rcases hcase with hnone | hne4
      · rw [hc] at hnone; exact absurd hnone (by simp)
      · have := hne4 cs hc
        simp [this]

/-- Witness for C8: a two-record list, one record with a malformed corner
value and one lacking corners. -/
theorem loadConfig_normalizes_witness :
    ((loadDisplay ⟨1, "A", none,
        some [⟨some 1, none⟩, ⟨some 2, some 2⟩, ⟨some 3, some 3⟩, ⟨none, some 4⟩],
        some 0, some 0, some 9, some 9, some 0, false⟩)
      ∈ loadConfigDisplays
        [⟨1, "A", none,
          some [⟨some 1, none⟩, ⟨some 2, some 2⟩, ⟨some 3, some 3⟩, ⟨none, some 4⟩],
          some 0, some 0, some 9, some 9, some 0, false⟩,
         ⟨2, "B", none, none, some 5, some 6, some 7, some 8, none, false⟩]) ∧
    ((loadDisplay ⟨1, "A", none,
        some [⟨some 1, none⟩, ⟨some 2, some 2⟩, ⟨some 3, some 3⟩, ⟨none, some 4⟩],
        some 0, some 0, some 9, some 9, some 0, false⟩).corners.length = 4 ∧
      (∀ cs, (⟨2, "B", none, none, some 5, some 6, some 7, some 8, none,
          false⟩ : RawDisplay).corners = some cs → cs.length = 4 →
        (loadDisplay ⟨2, "B", none, none, some 5, some 6, some 7, some 8,
            none, false⟩).corners =
          cs.map (fun c => (⟨parseNum c.x, parseNum c.y⟩ : Pt ℚ))) ∧
      (((⟨2, "B", none, none, some 5, some 6, some 7, some 8, none,
            false⟩ : RawDisplay).corners = none ∨
          ∀ cs, (⟨2, "B", none, none, some 5, some 6, some 7, some 8, none,
            false⟩ : RawDisplay).corners = some cs → cs.length ≠ 4) →
        (loadDisplay ⟨2, "B", none, none, some 5, some 6, some 7, some 8,
            none, false⟩).corners =
          cornersFromBounds
            (parseNum (some 5)) (parseNum (some 6))
            (parseNum (some 7)) (parseNum (some 8)))) := by
  constructor
  · simp [loadConfigDisplays]
  · exact loadConfig_normalizes
      [⟨1, "A", none,
        some [⟨some 1, none⟩, ⟨some 2, some 2⟩, ⟨some 3, some 3⟩, ⟨none, some 4⟩],
        some 0, some 0, some 9, some 9, some 0, false⟩,
       ⟨2, "B", none, none, some 5, some 6, some 7, some 8, none, false⟩]
      (loadDisplay ⟨1, "A", none,
        some [⟨some 1, none⟩, ⟨some 2, some 2⟩, ⟨some 3, some 3⟩, ⟨none, some 4⟩],
        some 0, some 0, some 9, some 9, some 0, false⟩)
      (by simp [loadConfigDisplays])
      ⟨2, "B", none, none, some 5, some 6, some 7, some 8, none, false⟩

/-! ## The `rotation` field -/

/-- JS `%` on integers: remainder truncating toward zero. -/
def jsRem (a b : Int) : Int := Int.tmod a b

/-- Rotation-field update in the `isRotating` mousemove branch:
`d.rotation = (rotateStartValue + Math.round(delta)) % 360;
 if (d.rotation < 0) d.rotation += 360;`
(`roundedDelta` stands for `Math.round(delta)`). -/
def rotateGestureRotation (rotateStartValue roundedDelta : Int) : Int :=
  let r := jsRem (rotateStartValue + roundedDelta) 360
  if r < 0 then r + 360 else r

/-- The `btn-update-display` handler stores the parsed panel value into the
rotation field with no further normalization:
`d.rotation = parseInt(document.getElementById('prop-rotation').value)`. -/
def updateDisplayRotation (d : Display) (parsedValue : Int) : Display :=
  { d with rotation := parsedValue }

/-- C5 (amended): a rotate gesture stores exactly
`(startRotation + round(delta)) mod 360` normalized to non-negative, hence
an integer in `[0, 360)`; but the property-panel update and the
persistence load only coerce to an integer (load defaulting to 0) without
normalizing into `[0, 360)`, so out-of-range values pass through them
(see the counterexample). -/
theorem rotation_field_spec (r0 k : Int) :
    rotateGestureRotation r0 k = (r0 + k) % 360 ∧
    0 ≤ rotateGestureRotation r0 k ∧ rotateGestureRotation r0 k < 360 ∧
    (∀ raw : RawDisplay, (loadDisplay raw).rotation = raw.rotation.getD 0) ∧
    (∀ (d : Display) (v : Int), (updateDisplayRotation d v).rotation = v) := by
  have hmain : rotateGestureRotation r0 k = (r0 + k) % 360 := by
    unfold rotateGestureRotation jsRem
    show (if Int.tmod (r0 + k) 360 < 0 then Int.tmod (r0 + k) 360 + 360
      else Int.tmod (r0 + k) 360) = (r0 + k) % 360
    have h1 : 360 * Int.tdiv (r0 + k) 360 + Int.tmod (r0 + k) 360 = r0 + k :=
      Int.tdiv_add_tmod (r0 + k) 360
    have h2 : Int.tmod (r0 + k) 360 < 360 :=
      Int.tmod_lt_of_pos (r0 + k) (by norm_num)
    have hneg : Int.tmod (-(r0 + k)) 360 = -Int.tmod (r0 + k) 360 := by
      rw [Int.tmod_def, Int.tmod_def, Int.neg_tdiv]
      ring
    have h4 : Int.tmod (-(r0 + k)) 360 < 360 :=
      Int.tmod_lt_of_pos (-(r0 + k)) (by norm_num)
    split <;> omega
  refine ⟨hmain, ?_, ?_, fun raw => rfl, fun d v => rfl⟩
  · rw [hmain]; exact Int.emod_nonneg _ (by norm_num)
  · rw [hmain]; exact Int.emod_lt_of_pos _ (by norm_num)

/-- Counterexample to C5 as stated: a persisted record with `rotation`
equal to 720 loads with the rotation field still 720, which is not in
`[0, 360)`; the same value entered in the property panel is stored
unchanged as well. -/
theorem rotation_field_counterexample :
    (loadDisplay ⟨3, "C", none, none, some 0, some 0, some 100, some 100,
        some 720, false⟩).rotation = 720 ∧
    ¬((loadDisplay ⟨3, "C", none, none, some 0, some 0, some 100, some 100,
        some 720, false⟩).rotation < 360) ∧
    (updateDisplayRotation
        ⟨3, "C", none, [], none, none, none, none, 0, false⟩ 720).rotation
      = 720 := by
  refine ⟨rfl, ?_, rfl⟩
  decide

/-! ## Rotation geometry (`rotatePoint`, `rotatePoints`, `getPolyCenter`)

The claims about rotation are stated over exact real arithmetic, so these
definitions live over `ℝ` with the real sine and cosine
(`rad = angleDeg * π / 180`). -/

/-- `rotatePoint(p, center, angleDeg)`. -/
noncomputable def rotatePoint (p center : Pt ℝ) (angleDeg : ℝ) : Pt ℝ :=
  ⟨(p.x - center.x) * Real.cos (angleDeg * Real.pi / 180)
      - (p.y - center.y) * Real.sin (angleDeg * Real.pi / 180) + center.x,
    (p.x - center.x) * Real.sin (angleDeg * Real.pi / 180)
      + (p.y - center.y) * Real.cos (angleDeg * Real.pi / 180) + center.y⟩

/-- `rotatePoints(points, center, angleDeg)`. -/
noncomputable def rotatePoints (points : List (Pt ℝ)) (center : Pt ℝ)
    (angleDeg : ℝ) : List (Pt ℝ) :=
  points.map (fun p => rotatePoint p center angleDeg)

/-- `getPolyCenter(poly)`: arithmetic mean of the corner coordinates. -/
noncomputable def getPolyCenter (poly : List (Pt ℝ)) : Pt ℝ :=
  ⟨(poly.map Pt.x).sum / poly.length, (poly.map Pt.y).sum / poly.length⟩

/-- Squared Euclidean distance between two points. -/
noncomputable def dist2 (p q : Pt ℝ) : ℝ :=
  (p.x - q.x) ^ 2 + (p.y - q.y) ^ 2

theorem Pt.ext {α : Type} {p q : Pt α} (hx : p.x = q.x) (hy : p.y = q.y) :
    p = q := by
  cases p; cases q; cases hx; cases hy; rfl

theorem rotatePoint_dist2 (p q center : Pt ℝ) (θ : ℝ) :
    dist2 (rotatePoint p center θ) (rotatePoint q center θ) = dist2 p q := by
  unfold dist2 rotatePoint
  dsimp only
  linear_combination ((p.x - q.x) ^ 2 + (p.y - q.y) ^ 2) *
    Real.sin_sq_add_cos_sq (θ * Real.pi / 180)

theorem sum_map_affine (l : List (Pt ℝ)) (a b k : ℝ) :
    (l.map (fun p => a * p.x + b * p.y + k)).sum
      = a * (l.map Pt.x).sum + b * (l.map Pt.y).sum + l.length * k := by
  induction l with
  | nil => simp
  | cons p rest ih =>
    simp only [List.map_cons, List.sum_cons, ih, List.length_cons]
    push_cast
    ring

theorem getPolyCenter_rotatePoints (poly : List (Pt ℝ)) (θ : ℝ)
    (hne : poly ≠ []) :
    getPolyCenter (rotatePoints poly (getPolyCenter poly) θ)
      = getPolyCenter poly := by
  have hn : (poly.length : ℝ) ≠ 0 := by
    have hpos : 0 < poly.length := List.length_pos.mpr hne
    exact_mod_cast Nat.pos_iff_ne_zero.mp hpos
  have hlen : (rotatePoints poly (getPolyCenter poly) θ).length = poly.length :=
    List.length_map _ _
  have hmapx : (rotatePoints poly (getPolyCenter poly) θ).map Pt.x
      = poly.map (fun p =>
          Real.cos (θ * Real.pi / 180) * p.x
            + (-Real.sin (θ * Real.pi / 180)) * p.y
            + ((getPolyCenter poly).x
                - Real.cos (θ * Real.pi / 180) * (getPolyCenter poly).x
                + Real.sin (θ * Real.pi / 180) * (getPolyCenter poly).y)) := by
    unfold rotatePoints
    rw [List.map_map]
    refine List.map_congr_left (fun p _ => ?_)
    show (rotatePoint p (getPolyCenter poly) θ).x = _
    unfold rotatePoint
    dsimp only
    ring
  have hmapy : (rotatePoints poly (getPolyCenter poly) θ).map Pt.y
      = poly.map (fun p =>
          Real.sin (θ * Real.pi / 180) * p.x
            + Real.cos (θ * Real.pi / 180) * p.y
            + ((getPolyCenter poly).y
                - Real.sin (θ * Real.pi / 180) * (getPolyCenter poly).x
                - Real.cos (θ * Real.pi / 180) * (getPolyCenter poly).y)) := by
    unfold rotatePoints
    rw [List.map_map]
    refine List.map_congr_left (fun p _ => ?_)
    show (rotatePoint p (getPolyCenter poly) θ).y = _
    unfold rotatePoint
    dsimp only
    ring
  have hcx : (getPolyCenter poly).x = (poly.map Pt.x).sum / poly.length := rfl
  have hcy : (getPolyCenter poly).y = (poly.map Pt.y).sum / poly.length := rfl
  have hsumx : ((rotatePoints poly (getPolyCenter poly) θ).map Pt.x).sum
      = (poly.map Pt.x).sum := by
    rw [hmapx, sum_map_affine, hcx, hcy]
    field_simp
    ring
  have hsumy : ((rotatePoints poly (getPolyCenter poly) θ).map Pt.y).sum
      = (poly.map Pt.y).sum := by
    rw [hmapy, sum_map_affine, hcx, hcy]
    field_simp
  refine Pt.ext ?_ ?_
  · show ((rotatePoints poly (getPolyCenter poly) θ).map Pt.x).sum
        / ((rotatePoints poly (getPolyCenter poly) θ).length : ℝ)
      = (poly.map Pt.x).sum / (poly.length : ℝ)
    rw [hlen, hsumx]
  · show ((rotatePoints poly (getPolyCenter poly) θ).map Pt.y).sum
        / ((rotatePoints poly (getPolyCenter poly) θ).length : ℝ)
      = (poly.map Pt.y).sum / (poly.length : ℝ)
    rw [hlen, hsumy]

/-- C4: rotating a quadrilateral's 4 corners about their centroid
(`getPolyCenter`) by any angle preserves every pairwise squared corner
distance (hence every pairwise distance) and preserves the centroid
itself, over exact real arithmetic. -/
theorem rotation_preserves_shape (poly : List (Pt ℝ)) (θ : ℝ)
    (h4 : poly.length = 4) :
    (∀ p ∈ poly, ∀ q ∈ poly,
      dist2 (rotatePoint p (getPolyCenter poly) θ)
          (rotatePoint q (getPolyCenter poly) θ) = dist2 p q) ∧
    getPolyCenter (rotatePoints poly (getPolyCenter poly) θ)
      = getPolyCenter poly :=
  ⟨fun p _ q _ => rotatePoint_dist2 p q _ θ,
    getPolyCenter_rotatePoints poly θ
      (fun h0 => by rw [h0] at h4; exact absurd h4 (by simp))⟩

/-- Witness for C4: the square with side 2 rotated by 90 degrees. -/
theorem rotation_preserves_shape_witness :
    (([⟨0, 0⟩, ⟨2, 0⟩, ⟨2, 2⟩, ⟨0, 2⟩] : List (Pt ℝ)).length = 4) ∧
    ((∀ p ∈ ([⟨0, 0⟩, ⟨2, 0⟩, ⟨2, 2⟩, ⟨0, 2⟩] : List (Pt ℝ)),
        ∀ q ∈ ([⟨0, 0⟩, ⟨2, 0⟩, ⟨2, 2⟩, ⟨0, 2⟩] : List (Pt ℝ)),
        dist2
          (rotatePoint p (getPolyCenter [⟨0, 0⟩, ⟨2, 0⟩, ⟨2, 2⟩, ⟨0, 2⟩]) 90)
          (rotatePoint q (getPolyCenter [⟨0, 0⟩, ⟨2, 0⟩, ⟨2, 2⟩, ⟨0, 2⟩]) 90)
          = dist2 p q) ∧
      getPolyCenter
          (rotatePoints [⟨0, 0⟩, ⟨2, 0⟩, ⟨2, 2⟩, ⟨0, 2⟩]
            (getPolyCenter [⟨0, 0⟩, ⟨2, 0⟩, ⟨2, 2⟩, ⟨0, 2⟩]) 90)
        = getPolyCenter [⟨0, 0⟩, ⟨2, 0⟩, ⟨2, 2⟩, ⟨0, 2⟩]) :=
  ⟨rfl, rotation_preserves_shape [⟨0, 0⟩, ⟨2, 0⟩, ⟨2, 2⟩, ⟨0, 2⟩] 90 rfl⟩

end DisplayMonitor
